import Mathlib

/-!
Verification of the DuailityAI multi-model detection serving layer against its
natural-language specification.

The repository ships the web front-end (React/TypeScript) together with
documentation; the serving core itself (model registry, cache/loader,
post-processing pipeline, response formatter behind the `/api/predict`,
`/api/models` and `/api/health` endpoints on port 8000) is not part of the
checked-in sources — only its TypeScript callers and the response-shape
declarations (`Detection`, `Model`, `PredictionResult` in
`Web_App_frontend/src/pages/ProperDemo.tsx` and
`Web_App_frontend/src/components/ImageUpload.tsx`) are.  The serving-core
definitions below are therefore modelled from the specification text (§3–§7 of
the spec), and each such definition says so in its doc comment.  The front-end
confidence-slider model at the end is translated directly from the TypeScript
sources.

Numeric values (scores, thresholds, pixel coordinates) are modelled as
rationals so that every definition is executable and every comparison is
decidable.
-/

namespace VistaServe

/-- Modelled from the spec: an axis-aligned bounding box `[x1, y1, x2, y2]`
(§3, `DetectionResult.bbox`). -/
structure Box where
  x1 : ℚ
  y1 : ℚ
  x2 : ℚ
  y2 : ℚ
deriving DecidableEq, Repr

/-- Modelled from the spec: one raw, unfiltered detection as emitted by the
detector in model-input coordinate space (§4.3, `rawDetections`). -/
structure RawDetection where
  box : Box
  score : ℚ
  classId : ℕ
deriving DecidableEq, Repr

/-- Modelled from the spec: the scale factors recorded by the inference
executor, used to map detections back to original-image coordinates (§4.3). -/
structure ScaleFactors where
  sx : ℚ
  sy : ℚ
deriving DecidableEq, Repr

/-- Modelled from the spec: width/height of the original uploaded image (§3,
`PredictionResponse.imageSize`). -/
structure ImageSize where
  width : ℚ
  height : ℚ
deriving DecidableEq, Repr

/-- Modelled from the spec: the derived risk label attached to a detection
(§3, `DetectionResult.riskLevel`). -/
inductive RiskLevel where
  | low
  | medium
  | high
  | critical
deriving DecidableEq, Repr

/-- Modelled from the spec: one detected object instance in the canonical
contract (§3, `DetectionResult`); field names follow the wire contract in §6
and the front-end `Detection` interface. -/
structure DetectionResult where
  bbox : Box
  confidence : ℚ
  class_id : ℕ
  class_name : String
  riskLevel : RiskLevel
deriving DecidableEq, Repr

/-- Modelled from the spec: a model variant's lifecycle status (§3,
`ModelDescriptor.status`); matches the front-end `Model.status` union. -/
inductive ModelStatus where
  | production
  | training
  | experimental
deriving DecidableEq, Repr

/-- Modelled from the spec: informational performance metrics of a variant
(§3, `ModelDescriptor.performance`); matches the front-end
`Model.performance` fields (the source field `recall` is rendered here as
`recallScore`, `recall` being reserved in Lean). -/
structure Performance where
  mAP50 : ℚ
  precision : ℚ
  recallScore : ℚ
deriving DecidableEq, Repr

/-- Modelled from the spec: identity and metadata for one detectable model
variant (§3, `ModelDescriptor`). -/
structure ModelDescriptor where
  id : String
  displayName : String
  description : String
  weightsLocation : String
  classNames : List String
  performance : Performance
  status : ModelStatus
  available : Bool
deriving DecidableEq, Repr

/-- Modelled from the spec: the error taxonomy of the serving layer (§7). -/
inductive ServeError where
  | notFound (modelId : String)
  | loadError (msg : String)
  | decodeError (msg : String)
  | inferenceError (msg : String)
  | timeoutError
  | validationError (msg : String)
  | internalConsistency (msg : String)
deriving DecidableEq, Repr

/-- Modelled from the spec: the user-facing message of an error payload
(§6, failure wire contract). -/
def errorMessage : ServeError → String
  | .notFound modelId => "Model not found: " ++ modelId
  | .loadError msg => "Model load failed: " ++ msg
  | .decodeError msg => "Could not decode image: " ++ msg
  | .inferenceError msg => "Inference failed: " ++ msg
  | .timeoutError => "Request timed out"
  | .validationError msg => "Invalid request: " ++ msg
  | .internalConsistency msg => "Internal consistency error: " ++ msg

/-- Modelled from the spec: the externally visible prediction result (§3,
`PredictionResponse`); field names follow the front-end `PredictionResult`
interface. -/
structure PredictionResponse where
  success : Bool
  model_used : String
  model_name : String
  image_size : ℚ × ℚ
  detections : List DetectionResult
  detection_count : ℕ
  confidence_threshold : ℚ
  timestamp : String
deriving DecidableEq, Repr

/-- Modelled from the spec: a minimal JSON value model, used to state the wire
contract of §6 (field sets of success and failure responses). -/
inductive Json where
  | str (s : String)
  | num (q : ℚ)
  | bool (b : Bool)
  | arr (xs : List Json)
  | obj (fields : List (String × Json))

/-- Field names of a JSON object, in order; `[]` for non-objects. -/
def Json.keys : Json → List String
  | .obj fields => fields.map Prod.fst
  | _ => []

/-- First value bound to a field name in a JSON object, if any. -/
def Json.lookup (k : String) : Json → Option Json
  | .obj fields => (fields.find? (fun p => p.1 == k)).map Prod.snd
  | _ => none

end VistaServe

namespace VistaServe

/-- Insert an element into a list, placing it before the first element `b`
with `le a b`; auxiliary for the stable insertion sort `sortBy`. -/
def insertBy (le : α → α → Bool) (a : α) : List α → List α
  | [] => [a]
  | b :: l => if le a b then a :: b :: l else b :: insertBy le a l

/-- Stable insertion sort by a boolean comparator; used by the deterministic
ordering steps of the post-processing pipeline. -/
def sortBy (le : α → α → Bool) : List α → List α
  | [] => []
  | a :: l => insertBy le a (sortBy le l)

/-- Pair every list element with its position, starting at `i`; used to record
detector emission order (§3 ordering tie-break). -/
def enumFrom (i : ℕ) : List α → List (ℕ × α)
  | [] => []
  | a :: l => (i, a) :: enumFrom (i + 1) l

/-- Area of a box; zero-width or zero-height boxes have area zero. -/
def Box.area (b : Box) : ℚ :=
  max 0 (b.x2 - b.x1) * max 0 (b.y2 - b.y1)

/-- Modelled from the spec: intersection area of two boxes (glossary, IoU). -/
def interArea (a b : Box) : ℚ :=
  max 0 (min a.x2 b.x2 - max a.x1 b.x1) * max 0 (min a.y2 b.y2 - max a.y1 b.y1)

/-- Modelled from the spec: intersection-over-union of two boxes (glossary),
with an empty union giving `0`. -/
def iou (a b : Box) : ℚ :=
  let u := a.area + b.area - interArea a b
  if u = 0 then 0 else interArea a b / u

/-- Modelled from the spec: ordering of indexed raw detections used inside
duplicate suppression — higher confidence first, ties broken by earlier
detector emission order (§4.4 step 2 tie-break). -/
def scoreLE (a b : ℕ × RawDetection) : Bool :=
  decide (b.2.score < a.2.score) ||
    (decide (a.2.score = b.2.score) && decide (a.1 ≤ b.1))

/-- Modelled from the spec: a kept detection `k` suppresses candidate `d`
when both have the same class and their IoU exceeds the threshold
(§4.4 step 2). -/
def suppresses (iouThr : ℚ) (k d : ℕ × RawDetection) : Bool :=
  k.2.classId == d.2.classId && decide (iouThr < iou k.2.box d.2.box)

/-- Modelled from the spec: greedy suppression scan — candidates arrive in
decreasing-confidence order and are dropped when a previously kept
detection suppresses them (§4.4 step 2). -/
def nmsLoop (iouThr : ℚ) (kept : List (ℕ × RawDetection)) :
    List (ℕ × RawDetection) → List (ℕ × RawDetection)
  | [] => kept.reverse
  | d :: rest =>
    if kept.any (fun k => suppresses iouThr k d) then
      nmsLoop iouThr kept rest
    else
      nmsLoop iouThr (d :: kept) rest

/-- Modelled from the spec: IoU-based per-class duplicate suppression
(§4.4 step 2) — of two same-class detections overlapping above
`iouThr`, the higher-confidence one is kept, an exact tie keeping the
one emitted first. -/
def nms (iouThr : ℚ) (l : List (ℕ × RawDetection)) : List (ℕ × RawDetection) :=
  nmsLoop iouThr [] (sortBy scoreLE l)

/-- Clamp `v` into the interval `[lo, hi]`. -/
def clamp (lo hi v : ℚ) : ℚ :=
  max lo (min hi v)

/-- Modelled from the spec: coordinate remap (§4.4 step 3) — scale a box from
model-input space to original-image pixel space and clamp it to the image
bounds. -/
def remapBox (s : ScaleFactors) (img : ImageSize) (b : Box) : Box where
  x1 := clamp 0 img.width (b.x1 * s.sx)
  y1 := clamp 0 img.height (b.y1 * s.sy)
  x2 := clamp 0 img.width (b.x2 * s.sx)
  y2 := clamp 0 img.height (b.y2 * s.sy)

/-- Modelled from the spec: the deterministic, total risk-classification
policy (§4.4 step 5) — a pure function of class name and confidence. -/
def riskOf (_name : String) (conf : ℚ) : RiskLevel :=
  if 9/10 ≤ conf then .critical
  else if 7/10 ≤ conf then .high
  else if 2/5 ≤ conf then .medium
  else .low

/-- Modelled from the spec: class mapping and risk classification for one
remapped detection (§4.4 steps 4–5); a class id outside `classNames` is an
internal-consistency error, never silently dropped. -/
def toResult (classNames : List String) (d : RawDetection) :
    Except ServeError DetectionResult :=
  match classNames[d.classId]? with
  | some name =>
    .ok { bbox := d.box, confidence := d.score, class_id := d.classId,
          class_name := name, riskLevel := riskOf name d.score }
  | none => .error (.internalConsistency "class id outside registry class list")

/-- Modelled from the spec: class mapping over the whole surviving sequence
(§4.4 step 4), propagating the first internal-consistency error. -/
def classMapStep (classNames : List String) :
    List (ℕ × RawDetection) → Except ServeError (List (ℕ × DetectionResult))
  | [] => .ok []
  | (i, d) :: rest =>
    match toResult classNames d with
    | .error e => .error e
    | .ok r =>
      match classMapStep classNames rest with
      | .error e => .error e
      | .ok rs => .ok ((i, r) :: rs)

/-- Modelled from the spec: final ordering of indexed results (§3, §4.4
step 6) — descending confidence, ties by ascending class id, then by
detector emission order. -/
def detLE (a b : ℕ × DetectionResult) : Bool :=
  decide (b.2.confidence < a.2.confidence) ||
    (decide (a.2.confidence = b.2.confidence) &&
      (decide (a.2.class_id < b.2.class_id) ||
        (decide (a.2.class_id = b.2.class_id) && decide (a.1 ≤ b.1))))

/-- Modelled from the spec: the post-processing pipeline (§4.4) on detections
tagged with their emission index — confidence filter, per-class duplicate
suppression, coordinate remap, class mapping with risk classification, and
final ordering. -/
def processIndexed (raw : List RawDetection) (s : ScaleFactors)
    (img : ImageSize) (classNames : List String) (confThr iouThr : ℚ) :
    Except ServeError (List (ℕ × DetectionResult)) :=
  let indexed := enumFrom 0 raw
  let kept := indexed.filter (fun p => decide (confThr ≤ p.2.score))
  let surviving := nms iouThr kept
  let remapped := surviving.map (fun p => (p.1, { p.2 with box := remapBox s img p.2.box }))
  match classMapStep classNames remapped with
  | .error e => .error e
  | .ok results => .ok (sortBy detLE results)

/-- Modelled from the spec: the post-processing pipeline contract
`process(rawDetections, scaleFactors, classNames, confidenceThreshold,
iouThreshold) -> sequence of DetectionResult` (§4.4). -/
def process (raw : List RawDetection) (s : ScaleFactors) (img : ImageSize)
    (classNames : List String) (confThr iouThr : ℚ) :
    Except ServeError (List DetectionResult) :=
  match processIndexed raw s img classNames confThr iouThr with
  | .error e => .error e
  | .ok results => .ok (results.map Prod.snd)

/-- Modelled from the spec: the response formatter (§4.5) — pure assembly of
the `PredictionResponse`, with `detection_count = len(detections)` and
`success = true`. -/
def format (desc : ModelDescriptor) (img : ImageSize)
    (dets : List DetectionResult) (thr : ℚ) (ts : String) : PredictionResponse where
  success := true
  model_used := desc.id
  model_name := desc.displayName
  image_size := (img.width, img.height)
  detections := dets
  detection_count := dets.length
  confidence_threshold := thr
  timestamp := ts

/-- Modelled from the spec: registry resolution `resolve(modelId) ->
ModelDescriptor | NotFoundError` (§4.1). -/
def resolve (registry : List ModelDescriptor) (modelId : String) :
    Except ServeError ModelDescriptor :=
  match registry.find? (fun d => d.id == modelId) with
  | some d => .ok d
  | none => .error (.notFound modelId)

/-- Modelled from the spec: the default confidence threshold applied when the
request omits the `confidence` field (§6). -/
def defaultConfidence : ℚ := 1/2

/-- Modelled from the spec: the implementation-chosen default `iou` threshold
(§6). -/
def defaultIou : ℚ := 9/20

/-- Modelled from the spec: validation of the request's confidence threshold
(§6) — a value in `[0,1]` is accepted, an omitted value defaults to `0.5`,
anything else is a `ValidationError`. -/
def parseConfidence : Option ℚ → Except ServeError ℚ
  | none => .ok defaultConfidence
  | some c =>
    if 0 ≤ c ∧ c ≤ 1 then .ok c
    else .error (.validationError "confidence must be in [0,1]")

/-- Modelled from the spec: the request wire contract (§6) — a `model`
identifier, an optional `confidence` threshold and an optional `iou`
threshold (the image payload is handed to the inference executor and is
abstracted by its outcome here). -/
structure PredictRequest where
  modelId : String
  confidence : Option ℚ
  iou : Option ℚ
deriving DecidableEq, Repr

/-- Modelled from the spec: outcome of the inference executor (§4.3) — raw
detections in model-input space together with the recorded scale factors
and the original image size. -/
structure InferOutcome where
  raw : List RawDetection
  scale : ScaleFactors
  imageSize : ImageSize
deriving DecidableEq, Repr

/-- Modelled from the spec: the serving path of one prediction request
(§2 data flow) — resolve the model, validate the threshold, take the
inference outcome, post-process, and format the response; the first error
aborts the request. -/
def runPredict (registry : List ModelDescriptor)
    (inference : Except ServeError InferOutcome)
    (req : PredictRequest) (ts : String) : Except ServeError PredictionResponse :=
  match resolve registry req.modelId with
  | .error e => .error e
  | .ok desc =>
    match parseConfidence req.confidence with
    | .error e => .error e
    | .ok conf =>
      match inference with
      | .error e => .error e
      | .ok outcome =>
        match process outcome.raw outcome.scale outcome.imageSize
            desc.classNames conf (req.iou.getD defaultIou) with
        | .error e => .error e
        | .ok dets => .ok (format desc outcome.imageSize dets conf ts)

/-- Modelled from the spec: JSON encoding of one detection on the wire
(§6) — exactly the fields `bbox`, `confidence`, `class_id`, `class_name`. -/
def detectionJson (d : DetectionResult) : Json :=
  .obj [("bbox", .arr [.num d.bbox.x1, .num d.bbox.y1, .num d.bbox.x2, .num d.bbox.y2]),
        ("confidence", .num d.confidence),
        ("class_id", .num d.class_id),
        ("class_name", .str d.class_name)]

/-- Modelled from the spec: JSON encoding of a success response (§6) —
exactly the fields of `PredictionResponse`, names as listed. -/
def responseJson (r : PredictionResponse) : Json :=
  .obj [("success", .bool r.success),
        ("model_used", .str r.model_used),
        ("model_name", .str r.model_name),
        ("image_size", .arr [.num r.image_size.1, .num r.image_size.2]),
        ("detections", .arr (r.detections.map detectionJson)),
        ("detection_count", .num r.detection_count),
        ("confidence_threshold", .num r.confidence_threshold),
        ("timestamp", .str r.timestamp)]

/-- Modelled from the spec: JSON encoding of a failure response (§6) —
exactly `success: false` and an `error` message, no `detections` field. -/
def errorJson (e : ServeError) : Json :=
  .obj [("success", .bool false), ("error", .str (errorMessage e))]

/-- Modelled from the spec: the `/api/predict` endpoint — a successful run is
encoded by `responseJson`, a failing one by `errorJson` (§6). -/
def predictEndpoint (registry : List ModelDescriptor)
    (inference : Except ServeError InferOutcome)
    (req : PredictRequest) (ts : String) : Json :=
  match runPredict registry inference req ts with
  | .ok r => responseJson r
  | .error e => errorJson e

end VistaServe

namespace VistaServe

/-- Modelled from the spec: the program counter of one caller of
`getOrLoad` with double-checked locking (§4.2) — fast-path check, wait for
the per-descriptor lock, check again under the lock, load, finished. -/
inductive Phase where
  | idle
  | waitLock
  | checkAgain
  | loading
  | finished
deriving DecidableEq, Repr

/-- Modelled from the spec: the shared state of the cache/loader for one
descriptor (§4.2) — whether the `CachedModel` has been published, who holds
the per-descriptor lock, how many load invocations have occurred, and the
program counter of every (potential) concurrent caller. -/
structure LoaderState where
  cache : Bool
  lock : Option ℕ
  loads : ℕ
  threads : ℕ → Phase

/-- Modelled from the spec: initial loader state for an unloaded descriptor —
nothing published, lock free, no loads, every caller at its first check. -/
def initLoader : LoaderState where
  cache := false
  lock := none
  loads := 0
  threads := fun _ => Phase.idle

/-- Modelled from the spec: one interleaved step of the double-checked
loading protocol (§4.2) — a caller either returns on the fast path, waits
for the lock, acquires it, re-checks under the lock, starts the (counted)
load, or publishes the loaded model and releases the lock. -/
inductive LoaderStep : LoaderState → LoaderState → Prop where
  | fastPath (s : LoaderState) (t : ℕ)
      (ht : s.threads t = Phase.idle) (hc : s.cache = true) :
      LoaderStep s { s with threads := Function.update s.threads t Phase.finished }
  | missPath (s : LoaderState) (t : ℕ)
      (ht : s.threads t = Phase.idle) (hc : s.cache = false) :
      LoaderStep s { s with threads := Function.update s.threads t Phase.waitLock }
  | acquire (s : LoaderState) (t : ℕ)
      (ht : s.threads t = Phase.waitLock) (hl : s.lock = none) :
      LoaderStep s { s with lock := some t,
                            threads := Function.update s.threads t Phase.checkAgain }
  | hitUnderLock (s : LoaderState) (t : ℕ)
      (ht : s.threads t = Phase.checkAgain) (hc : s.cache = true) :
      LoaderStep s { s with lock := none,
                            threads := Function.update s.threads t Phase.finished }
  | beginLoad (s : LoaderState) (t : ℕ)
      (ht : s.threads t = Phase.checkAgain) (hc : s.cache = false) :
      LoaderStep s { s with loads := s.loads + 1,
                            threads := Function.update s.threads t Phase.loading }
  | publish (s : LoaderState) (t : ℕ)
      (ht : s.threads t = Phase.loading) :
      LoaderStep s { s with cache := true, lock := none,
                            threads := Function.update s.threads t Phase.finished }

/-- Modelled from the spec: the states the loader can reach from the
unloaded initial state under any interleaving of concurrent callers. -/
inductive ReachableLoader : LoaderState → Prop where
  | start : ReachableLoader initLoader
  | step {s s' : LoaderState} :
      ReachableLoader s → LoaderStep s s' → ReachableLoader s'

/-- Inductive invariant of the double-checked loading protocol: at most one
load has happened; a published cache means exactly one load; a caller
between the second check and publication holds the lock; a loading caller
implies one counted load and no publication yet; one counted load means
published or still loading; a finished caller means the model is
published. -/
def LoaderInv (s : LoaderState) : Prop :=
  s.loads ≤ 1 ∧
  (s.cache = true → s.loads = 1) ∧
  (∀ t, s.threads t = Phase.checkAgain ∨ s.threads t = Phase.loading →
    s.lock = some t) ∧
  (∀ t, s.threads t = Phase.loading → s.loads = 1 ∧ s.cache = false) ∧
  (s.loads = 1 → s.cache = true ∨ ∃ t, s.threads t = Phase.loading) ∧
  (∀ t, s.threads t = Phase.finished → s.cache = true)

/-- Loader state after caller `0` has failed the fast-path check. -/
def loaderTrace1 : LoaderState :=
  { initLoader with threads := Function.update initLoader.threads 0 Phase.waitLock }

/-- Loader state after caller `0` has acquired the per-descriptor lock. -/
def loaderTrace2 : LoaderState :=
  { loaderTrace1 with lock := some 0,
                      threads := Function.update loaderTrace1.threads 0 Phase.checkAgain }

/-- Loader state after caller `0` has started the one counted load. -/
def loaderTrace3 : LoaderState :=
  { loaderTrace2 with loads := loaderTrace2.loads + 1,
                      threads := Function.update loaderTrace2.threads 0 Phase.loading }

/-- Loader state after caller `0` has published the loaded model. -/
def loaderTrace4 : LoaderState :=
  { loaderTrace3 with cache := true, lock := none,
                      threads := Function.update loaderTrace3.threads 0 Phase.finished }

end VistaServe

namespace VistaServe.DemoClient

/-- Initial confidence-threshold state of the demo client: `useState(0.5)` in
`Web_App_frontend/src/pages/ProperDemo.tsx` line 48 and `useState([0.5])`
in `Web_App_frontend/src/components/ImageUpload.tsx` line 36. -/
def initialConfidence : ℚ := 1/2

/-- Minimum of the confidence slider: `min="0.1"` in `ProperDemo.tsx` and
`min={0.1}` in `ImageUpload.tsx`. -/
def sliderMin : ℚ := 1/10

/-- Step of the confidence slider: `step="0.05"` in `ProperDemo.tsx` and
`step={0.05}` in `ImageUpload.tsx`; with `max="1"` the reachable slider
positions are `sliderMin + k * sliderStep` for `k = 0, …, 18`. -/
def sliderStep : ℚ := 1/20

/-- Value emitted by the confidence slider at position `k`; the range input
snaps to multiples of the step above the minimum and never exceeds the
maximum `1`, so positions are bounded by `18`. -/
def sliderValue (k : Fin 19) : ℚ := sliderMin + k.1 * sliderStep

/-- Confidence-threshold state after a sequence of slider moves: each
`onChange`/`onValueChange` handler replaces the state with the slider's
value (`setConfidence` in both components). -/
def confidenceAfter (moves : List (Fin 19)) : ℚ :=
  moves.foldl (fun _ k => sliderValue k) initialConfidence

/-- Confidence threshold the demo client attaches to a prediction request:
`formData.append('confidence', confidence.toString())` in
`ProperDemo.tsx` / `ImageUpload.tsx` sends the current state. -/
def requestConfidence (moves : List (Fin 19)) : ℚ := confidenceAfter moves

end VistaServe.DemoClient

namespace VistaServe

/-- Class list of the sample model, from the repository's retraining summary
(seven safety-equipment classes). -/
def demoClasses : List String :=
  ["OxygenTank", "NitrogenTank", "FirstAidBox", "FireAlarm",
   "SafetySwitchPanel", "EmergencyPhone", "FireExtinguisher"]

/-- Sample registered model descriptor used to exercise the serving path on
concrete inputs. -/
def demoDescriptor : ModelDescriptor where
  id := "flagship"
  displayName := "Flagship"
  description := "High-precision safety equipment detector"
  weightsLocation := "models/weights/best.pt"
  classNames := demoClasses
  performance := { mAP50 := 73/100, precision := 9/10, recallScore := 13/20 }
  status := ModelStatus.production
  available := true

/-- Sample one-entry registry. -/
def demoRegistry : List ModelDescriptor := [demoDescriptor]

/-- Sample raw detection in model-input space. -/
def demoRaw : RawDetection where
  box := { x1 := 100, y1 := 50, x2 := 300, y2 := 200 }
  score := 9/10
  classId := 0

/-- Sample inference outcome: one raw detection, unit scale factors, a
640 by 640 original image. -/
def demoOutcome : InferOutcome where
  raw := [demoRaw]
  scale := { sx := 1, sy := 1 }
  imageSize := { width := 640, height := 640 }

/-- Sample prediction request naming the sample model with an explicit
threshold of one half. -/
def demoRequest : PredictRequest where
  modelId := "flagship"
  confidence := some (1/2)
  iou := none

/-- Sample request with the confidence field omitted. -/
def demoRequestNoConf : PredictRequest where
  modelId := "flagship"
  confidence := none
  iou := none

/-- Sample request naming an unregistered model id. -/
def demoRequestUnknown : PredictRequest where
  modelId := "nonexistent"
  confidence := some (1/2)
  iou := none

/-- The detection the sample request produces. -/
def demoDetection : DetectionResult where
  bbox := { x1 := 100, y1 := 50, x2 := 300, y2 := 200 }
  confidence := 9/10
  class_id := 0
  class_name := "OxygenTank"
  riskLevel := RiskLevel.critical

/-- The response the sample request produces. -/
def demoResponse : PredictionResponse :=
  format demoDescriptor demoOutcome.imageSize [demoDetection] (1/2) "t0"

/-- Sample raw detection scoring below the one-half threshold. -/
def demoRawLow : RawDetection where
  box := { x1 := 10, y1 := 10, x2 := 20, y2 := 20 }
  score := 1/4
  classId := 1

/-- Second sample raw detection: the same box and class as `demoRaw`, with a
lower confidence. -/
def demoRawB : RawDetection where
  box := demoRaw.box
  score := 4/5
  classId := 0

end VistaServe

namespace VistaServe

/-- Equality of `Except` values is decidable when both components are. -/
instance {ε α : Type} [DecidableEq ε] [DecidableEq α] : DecidableEq (Except ε α)
  | .ok a, .ok b =>
    if h : a = b then .isTrue (by rw [h]) else .isFalse (by simp [h])
  | .ok _, .error _ => .isFalse (by simp)
  | .error _, .ok _ => .isFalse (by simp)
  | .error a, .error b =>
    if h : a = b then .isTrue (by rw [h]) else .isFalse (by simp [h])

theorem mem_insertBy {le : α → α → Bool} (a x : α) (l : List α) :
    x ∈ insertBy le a l ↔ x = a ∨ x ∈ l := by
  induction l with
  | nil => simp [insertBy]
  | cons b l ih =>
    simp only [insertBy]
    split
    · simp only [List.mem_cons]
    · simp only [List.mem_cons, ih]
      tauto

theorem mem_sortBy {le : α → α → Bool} (x : α) (l : List α) :
    x ∈ sortBy le l ↔ x ∈ l := by
  induction l with
  | nil => simp [sortBy]
  | cons a l ih => simp [sortBy, mem_insertBy, ih]

theorem sorted_insertBy {le : α → α → Bool}
    (htotal : ∀ a b, le a b = true ∨ le b a = true)
    (htrans : ∀ a b c, le a b = true → le b c = true → le a c = true)
    (a : α) {l : List α} (h : l.Pairwise (fun p q => le p q = true)) :
    (insertBy le a l).Pairwise (fun p q => le p q = true) := by
  induction l with
  | nil => simp [insertBy]
  | cons b l ih =>
    rcases List.pairwise_cons.mp h with ⟨hb, hl⟩
    simp only [insertBy]
    split
    case isTrue hab =>
      refine List.pairwise_cons.mpr ⟨?_, h⟩
      intro c hc
      rcases List.mem_cons.mp hc with rfl | hcl
      · exact hab
      · exact htrans a b c hab (hb c hcl)
    case isFalse hab =>
      refine List.pairwise_cons.mpr ⟨?_, ih hl⟩
      intro c hc
      rcases (mem_insertBy a c l).mp hc with rfl | hcl
      · rcases htotal c b with h1 | h1
        · exact absurd h1 hab
        · exact h1
      · exact hb c hcl

theorem sorted_sortBy {le : α → α → Bool}
    (htotal : ∀ a b, le a b = true ∨ le b a = true)
    (htrans : ∀ a b c, le a b = true → le b c = true → le a c = true)
    (l : List α) :
    (sortBy le l).Pairwise (fun p q => le p q = true) := by
  induction l with
  | nil => simp [sortBy]
  | cons a l ih => exact sorted_insertBy htotal htrans a ih

theorem mem_enumFrom {p : ℕ × α} :
    ∀ {i : ℕ} {l : List α}, p ∈ enumFrom i l → p.2 ∈ l := by
  intro i l
  induction l generalizing i with
  | nil => simp [enumFrom]
  | cons a l ih =>
    intro h
    rcases List.mem_cons.mp h with rfl | h2
    · exact List.mem_cons_self a l
    · exact List.mem_cons_of_mem a (ih h2)

theorem mem_nmsLoop {thr : ℚ} {x : ℕ × RawDetection} :
    ∀ {l kept : List (ℕ × RawDetection)},
      x ∈ nmsLoop thr kept l → x ∈ kept ∨ x ∈ l := by
  intro l
  induction l with
  | nil =>
    intro kept h
    exact Or.inl (List.mem_reverse.mp h)
  | cons d rest ih =>
    intro kept h
    simp only [nmsLoop] at h
    split at h
    · rcases ih h with h1 | h1
      · exact Or.inl h1
      · exact Or.inr (List.mem_cons_of_mem d h1)
    · rcases ih h with h1 | h1
      · rcases List.mem_cons.mp h1 with rfl | h2
        · exact Or.inr (List.mem_cons_self x rest)
        · exact Or.inl h2
      · exact Or.inr (List.mem_cons_of_mem d h1)

theorem interArea_comm (a b : Box) : interArea a b = interArea b a := by
  unfold interArea
  rw [min_comm a.x2 b.x2, max_comm a.x1 b.x1, min_comm a.y2 b.y2, max_comm a.y1 b.y1]

theorem iou_comm (a b : Box) : iou a b = iou b a := by
  unfold iou
  rw [interArea_comm, add_comm a.area b.area]

theorem pairwise_nmsLoop {thr : ℚ} :
    ∀ {l kept : List (ℕ × RawDetection)},
      kept.Pairwise (fun a b => a.2.classId = b.2.classId → iou a.2.box b.2.box ≤ thr) →
      (nmsLoop thr kept l).Pairwise
        (fun a b => a.2.classId = b.2.classId → iou a.2.box b.2.box ≤ thr) := by
  intro l
  induction l with
  | nil =>
    intro kept h
    have hsym : ∀ {a b : ℕ × RawDetection},
        (a.2.classId = b.2.classId → iou a.2.box b.2.box ≤ thr) →
        (b.2.classId = a.2.classId → iou b.2.box a.2.box ≤ thr) := by
      intro a b hab hba
      rw [iou_comm]
      exact hab hba.symm
    have := List.pairwise_reverse.mpr (h.imp hsym)
    simpa [nmsLoop] using this
  | cons d rest ih =>
    intro kept h
    simp only [nmsLoop]
    split
    · exact ih h
    case isFalse hn =>
      apply ih
      refine List.pairwise_cons.mpr ⟨?_, h⟩
      intro k hk heq
      have hfalse : suppresses thr k d = false := by
        by_contra hc
        exact hn (List.any_eq_true.mpr ⟨k, hk, by
          cases hsup : suppresses thr k d
          · exact absurd hsup hc
          · rfl⟩)
      have : ¬(k.2.classId = d.2.classId ∧ thr < iou k.2.box d.2.box) := by
        intro ⟨h1, h2⟩
        simp [suppresses, h1, h2] at hfalse
      rw [iou_comm]
      by_contra hlt
      exact this ⟨heq.symm, lt_of_not_le hlt⟩

end VistaServe

namespace VistaServe

theorem scoreLE_total (a b : ℕ × RawDetection) :
    scoreLE a b = true ∨ scoreLE b a = true := by
  simp only [scoreLE, Bool.or_eq_true, Bool.and_eq_true, decide_eq_true_iff]
  rcases lt_trichotomy a.2.score b.2.score with h | h | h
  · exact Or.inr (Or.inl h)
  · rcases Nat.le_total a.1 b.1 with h2 | h2
    · exact Or.inl (Or.inr ⟨h, h2⟩)
    · exact Or.inr (Or.inr ⟨h.symm, h2⟩)
  · exact Or.inl (Or.inl h)

theorem scoreLE_trans (a b c : ℕ × RawDetection) :
    scoreLE a b = true → scoreLE b c = true → scoreLE a c = true := by
  simp only [scoreLE, Bool.or_eq_true, Bool.and_eq_true, decide_eq_true_iff]
  rintro (hab | ⟨hab1, hab2⟩) (hbc | ⟨hbc1, hbc2⟩)
  · exact Or.inl (lt_trans hbc hab)
  · exact Or.inl (lt_of_le_of_lt (le_of_eq hbc1.symm) hab)
  · exact Or.inl (lt_of_lt_of_le hbc (le_of_eq hab1.symm))
  · exact Or.inr ⟨hab1.trans hbc1, le_trans hab2 hbc2⟩

theorem detLE_total (a b : ℕ × DetectionResult) :
    detLE a b = true ∨ detLE b a = true := by
  simp only [detLE, Bool.or_eq_true, Bool.and_eq_true, decide_eq_true_iff]
  rcases lt_trichotomy a.2.confidence b.2.confidence with h | h | h
  · exact Or.inr (Or.inl h)
  · rcases Nat.lt_trichotomy a.2.class_id b.2.class_id with h2 | h2 | h2
    · exact Or.inl (Or.inr ⟨h, Or.inl h2⟩)
    · rcases Nat.le_total a.1 b.1 with h3 | h3
      · exact Or.inl (Or.inr ⟨h, Or.inr ⟨h2, h3⟩⟩)
      · exact Or.inr (Or.inr ⟨h.symm, Or.inr ⟨h2.symm, h3⟩⟩)
    · exact Or.inr (Or.inr ⟨h.symm, Or.inl h2⟩)
  · exact Or.inl (Or.inl h)

theorem detLE_trans (a b c : ℕ × DetectionResult) :
    detLE a b = true → detLE b c = true → detLE a c = true := by
  simp only [detLE, Bool.or_eq_true, Bool.and_eq_true, decide_eq_true_iff]
  rintro (hab | ⟨hab1, hab2⟩) (hbc | ⟨hbc1, hbc2⟩)
  · exact Or.inl (lt_trans hbc hab)
  · exact Or.inl (lt_of_le_of_lt (le_of_eq hbc1.symm) hab)
  · exact Or.inl (lt_of_lt_of_le hbc (le_of_eq hab1.symm))
  · refine Or.inr ⟨hab1.trans hbc1, ?_⟩
    rcases hab2 with h2 | ⟨h2, h3⟩
    · rcases hbc2 with h4 | ⟨h4, h5⟩
      · exact Or.inl (Nat.lt_trans h2 h4)
      · exact Or.inl (h4 ▸ h2)
    · rcases hbc2 with h4 | ⟨h4, h5⟩
      · exact Or.inl (h2 ▸ h4)
      · exact Or.inr ⟨h2.trans h4, Nat.le_trans h3 h5⟩

theorem detLE_iff (a b : ℕ × DetectionResult) :
    detLE a b = true ↔
      (b.2.confidence < a.2.confidence ∨
        (a.2.confidence = b.2.confidence ∧
          (a.2.class_id < b.2.class_id ∨
            (a.2.class_id = b.2.class_id ∧ a.1 ≤ b.1)))) := by
  simp [detLE, Bool.or_eq_true, Bool.and_eq_true, decide_eq_true_iff]

theorem toResult_ok {cn : List String} {d : RawDetection} {r : DetectionResult}
    (h : toResult cn d = .ok r) :
    r.confidence = d.score ∧ r.class_id = d.classId ∧ r.bbox = d.box ∧
      cn[d.classId]? = some r.class_name := by
  unfold toResult at h
  split at h
  case h_1 name heq =>
    injection h with h2
    subst h2
    exact ⟨rfl, rfl, rfl, heq⟩
  case h_2 => exact absurd h (by simp)

theorem classMapStep_ok_mem {cn : List String} :
    ∀ {l : List (ℕ × RawDetection)} {rs : List (ℕ × DetectionResult)},
      classMapStep cn l = .ok rs →
      ∀ p ∈ rs, ∃ d : RawDetection, (p.1, d) ∈ l ∧ toResult cn d = .ok p.2 := by
  intro l
  induction l with
  | nil =>
    intro rs h p hp
    simp only [classMapStep] at h
    injection h with h2
    subst h2
    exact absurd hp (List.not_mem_nil p)
  | cons q rest ih =>
    intro rs h p hp
    obtain ⟨i, d⟩ := q
    simp only [classMapStep] at h
    split at h
    · exact absurd h (by simp)
    case h_2 r heq =>
      split at h
      · exact absurd h (by simp)
      case h_2 rs0 heq0 =>
        injection h with h2
        subst h2
        rcases List.mem_cons.mp hp with rfl | hp2
        · exact ⟨d, List.mem_cons_self _ _, heq⟩
        · rcases ih heq0 p hp2 with ⟨d', hd1, hd2⟩
          exact ⟨d', List.mem_cons_of_mem _ hd1, hd2⟩

theorem processIndexed_ok_mem {raw : List RawDetection} {s : ScaleFactors}
    {img : ImageSize} {cn : List String} {confThr iouThr : ℚ}
    {idets : List (ℕ × DetectionResult)}
    (h : processIndexed raw s img cn confThr iouThr = .ok idets) :
    ∀ p ∈ idets, ∃ rd : RawDetection, rd ∈ raw ∧ confThr ≤ rd.score ∧
      p.2.confidence = rd.score ∧ p.2.class_id = rd.classId ∧
      p.2.bbox = remapBox s img rd.box ∧ cn[rd.classId]? = some p.2.class_name := by
  intro p hp
  simp only [processIndexed] at h
  split at h
  · exact absurd h (by simp)
  case h_2 results heq =>
    injection h with h2
    subst h2
    have hp2 : p ∈ results := (mem_sortBy p results).mp hp
    rcases classMapStep_ok_mem heq p hp2 with ⟨d, hd1, hd2⟩
    rcases List.mem_map.mp hd1 with ⟨q, hq1, hq2⟩
    have hq3 : q ∈ sortBy scoreLE
        ((enumFrom 0 raw).filter (fun p => decide (confThr ≤ p.2.score))) := by
      rcases mem_nmsLoop hq1 with h3 | h3
      · exact absurd h3 (List.not_mem_nil q)
      · exact h3
    have hq4 := (mem_sortBy q _).mp hq3
    have hq5 := List.mem_filter.mp hq4
    have hraw : q.2 ∈ raw := mem_enumFrom hq5.1
    have hthr : confThr ≤ q.2.score := of_decide_eq_true hq5.2
    have hq6 : p.1 = q.1 ∧ d = { q.2 with box := remapBox s img q.2.box } := by
      have := hq2.symm
      injection this with ha hb
      exact ⟨ha, hb⟩
    rcases toResult_ok hd2 with ⟨hc1, hc2, hc3, hc4⟩
    refine ⟨q.2, hraw, hthr, ?_, ?_, ?_, ?_⟩
    · rw [hc1, hq6.2]
    · rw [hc2, hq6.2]
    · rw [hc3, hq6.2]
    · rw [hq6.2] at hc4
      exact hc4

theorem process_ok_elim {raw : List RawDetection} {s : ScaleFactors}
    {img : ImageSize} {cn : List String} {confThr iouThr : ℚ}
    {dets : List DetectionResult}
    (h : process raw s img cn confThr iouThr = .ok dets) :
    ∃ idets, processIndexed raw s img cn confThr iouThr = .ok idets ∧
      dets = idets.map Prod.snd := by
  unfold process at h
  split at h
  · exact absurd h (by simp)
  case h_2 results heq =>
    injection h with h2
    exact ⟨results, heq, h2.symm⟩

theorem process_ok_mem {raw : List RawDetection} {s : ScaleFactors}
    {img : ImageSize} {cn : List String} {confThr iouThr : ℚ}
    {dets : List DetectionResult}
    (h : process raw s img cn confThr iouThr = .ok dets) :
    ∀ d ∈ dets, ∃ rd : RawDetection, rd ∈ raw ∧ confThr ≤ rd.score ∧
      d.confidence = rd.score ∧ d.class_id = rd.classId ∧
      d.bbox = remapBox s img rd.box ∧ cn[rd.classId]? = some d.class_name := by
  intro d hd
  rcases process_ok_elim h with ⟨idets, hi, rfl⟩
  rcases List.mem_map.mp hd with ⟨p, hp, rfl⟩
  exact processIndexed_ok_mem hi p hp

theorem runPredict_ok_elim {reg : List ModelDescriptor}
    {inference : Except ServeError InferOutcome} {req : PredictRequest}
    {ts : String} {r : PredictionResponse}
    (h : runPredict reg inference req ts = .ok r) :
    ∃ desc conf outcome dets,
      resolve reg req.modelId = .ok desc ∧
      parseConfidence req.confidence = .ok conf ∧
      inference = .ok outcome ∧
      process outcome.raw outcome.scale outcome.imageSize desc.classNames conf
        (req.iou.getD defaultIou) = .ok dets ∧
      r = format desc outcome.imageSize dets conf ts := by
  cases hinf : inference with
  | error e =>
    rw [hinf] at h
    unfold runPredict at h
    split at h
    · exact absurd h (by simp)
    split at h
    · exact absurd h (by simp)
    exact absurd h (by simp)
  | ok outcome =>
    rw [hinf] at h
    unfold runPredict at h
    split at h
    · exact absurd h (by simp)
    case h_2 desc hdesc =>
      split at h
      · exact absurd h (by simp)
      case h_2 conf hconf =>
        split at h
        · exact absurd h (by simp)
        case h_2 outcome2 houtcome2 =>
          injection houtcome2 with h3
          subst h3
          split at h
          · exact absurd h (by simp)
          case h_2 dets hdets =>
            injection h with h2
            exact ⟨desc, conf, outcome, dets, hdesc, hconf, rfl, hdets, h2.symm⟩

end VistaServe

namespace VistaServe

theorem clamp_of_mem (v hi : ℚ) (h0 : 0 ≤ v) (h1 : v ≤ hi) : clamp 0 hi v = v := by
  unfold clamp
  rw [min_eq_right h1, max_eq_right h0]

/-- C1: every successful prediction response is a JSON object with exactly the
fields `success`, `model_used`, `model_name`, `image_size`, `detections`
(each detection carrying `bbox`, `confidence`, `class_id`, `class_name`),
`detection_count`, `confidence_threshold` and `timestamp`, for every
request that succeeds, regardless of how many detections were found. -/
theorem success_response_exact_fields
    (reg : List ModelDescriptor) (inference : Except ServeError InferOutcome)
    (req : PredictRequest) (ts : String) (r : PredictionResponse)
    (h : runPredict reg inference req ts = .ok r) :
    Json.keys (responseJson r) =
      ["success", "model_used", "model_name", "image_size", "detections",
       "detection_count", "confidence_threshold", "timestamp"] ∧
    Json.lookup "success" (responseJson r) = some (Json.bool true) ∧
    Json.lookup "detections" (responseJson r) =
      some (Json.arr (r.detections.map detectionJson)) ∧
    ∀ d ∈ r.detections,
      Json.keys (detectionJson d) = ["bbox", "confidence", "class_id", "class_name"] := by
  rcases runPredict_ok_elim h with ⟨desc, conf, outcome, dets, _, _, _, _, hr⟩
  subst hr
  exact ⟨rfl, rfl, rfl, fun d _ => rfl⟩

/-- C2: every detection in a prediction response has its confidence in the
unit interval and its class name equal to the used model's class list at
its class id, provided the detector emits scores in the unit interval. -/
theorem detection_confidence_and_class_pairing
    (reg : List ModelDescriptor) (inference : Except ServeError InferOutcome)
    (req : PredictRequest) (ts : String) (r : PredictionResponse)
    (desc : ModelDescriptor) (outcome : InferOutcome)
    (h : runPredict reg inference req ts = .ok r)
    (hdesc : resolve reg req.modelId = .ok desc)
    (hinf : inference = .ok outcome)
    (hscores : ∀ rd ∈ outcome.raw, 0 ≤ rd.score ∧ rd.score ≤ 1)
    (d : DetectionResult) (hd : d ∈ r.detections) :
    (0 ≤ d.confidence ∧ d.confidence ≤ 1) ∧
      desc.classNames[d.class_id]? = some d.class_name := by
  rcases runPredict_ok_elim h with ⟨desc', conf, outcome', dets, hdesc', hconf, hinf', hproc, hr⟩
  rw [hdesc] at hdesc'
  injection hdesc' with he
  subst he
  rw [hinf] at hinf'
  injection hinf' with he2
  subst he2
  subst hr
  have hd2 : d ∈ dets := hd
  rcases process_ok_mem hproc d hd2 with ⟨rd, hraw, hthr, hcf, hcid, _, hname⟩
  rcases hscores rd hraw with ⟨h0, h1⟩
  refine ⟨⟨?_, ?_⟩, ?_⟩
  · rw [hcf]; exact h0
  · rw [hcf]; exact h1
  · rw [hcid]; exact hname

/-- C3: every detection's bounding box in a prediction response lies within
the original image bounds with strictly ordered corners, provided the
scale factors are positive and the raw boxes are well formed within the
scaled image bounds. -/
theorem detection_bbox_within_image_bounds
    (reg : List ModelDescriptor) (inference : Except ServeError InferOutcome)
    (req : PredictRequest) (ts : String) (r : PredictionResponse)
    (outcome : InferOutcome)
    (h : runPredict reg inference req ts = .ok r)
    (hinf : inference = .ok outcome)
    (hsx : 0 < outcome.scale.sx) (hsy : 0 < outcome.scale.sy)
    (hraws : ∀ rd ∈ outcome.raw,
      (0 ≤ rd.box.x1 ∧ rd.box.x1 < rd.box.x2 ∧
        rd.box.x2 * outcome.scale.sx ≤ outcome.imageSize.width) ∧
      (0 ≤ rd.box.y1 ∧ rd.box.y1 < rd.box.y2 ∧
        rd.box.y2 * outcome.scale.sy ≤ outcome.imageSize.height))
    (d : DetectionResult) (hd : d ∈ r.detections) :
    (0 ≤ d.bbox.x1 ∧ d.bbox.x1 < d.bbox.x2 ∧ d.bbox.x2 ≤ r.image_size.1) ∧
      (0 ≤ d.bbox.y1 ∧ d.bbox.y1 < d.bbox.y2 ∧ d.bbox.y2 ≤ r.image_size.2) := by
  rcases runPredict_ok_elim h with ⟨desc', conf, outcome', dets, _, _, hinf', hproc, hr⟩
  rw [hinf] at hinf'
  injection hinf' with he2
  subst he2
  subst hr
  have hd2 : d ∈ dets := hd
  rcases process_ok_mem hproc d hd2 with ⟨rd, hraw, _, _, _, hbox, _⟩
  rcases hraws rd hraw with ⟨⟨hx0, hx12, hx2w⟩, ⟨hy0, hy12, hy2h⟩⟩
  have hsx' := le_of_lt hsx
  have hsy' := le_of_lt hsy
  have hx1w : rd.box.x1 * outcome.scale.sx ≤ outcome.imageSize.width :=
    le_trans (le_of_lt (mul_lt_mul_of_pos_right hx12 hsx)) hx2w
  have hy1h : rd.box.y1 * outcome.scale.sy ≤ outcome.imageSize.height :=
    le_trans (le_of_lt (mul_lt_mul_of_pos_right hy12 hsy)) hy2h
  have hx20 : 0 ≤ rd.box.x2 * outcome.scale.sx :=
    mul_nonneg (le_of_lt (lt_of_le_of_lt hx0 hx12)) hsx'
  have hy20 : 0 ≤ rd.box.y2 * outcome.scale.sy :=
    mul_nonneg (le_of_lt (lt_of_le_of_lt hy0 hy12)) hsy'
  have ex1 : (remapBox outcome.scale outcome.imageSize rd.box).x1 =
      rd.box.x1 * outcome.scale.sx := by
    unfold remapBox
    exact clamp_of_mem _ _ (mul_nonneg hx0 hsx') hx1w
  have ex2 : (remapBox outcome.scale outcome.imageSize rd.box).x2 =
      rd.box.x2 * outcome.scale.sx := by
    unfold remapBox
    exact clamp_of_mem _ _ hx20 hx2w
  have ey1 : (remapBox outcome.scale outcome.imageSize rd.box).y1 =
      rd.box.y1 * outcome.scale.sy := by
    unfold remapBox
    exact clamp_of_mem _ _ (mul_nonneg hy0 hsy') hy1h
  have ey2 : (remapBox outcome.scale outcome.imageSize rd.box).y2 =
      rd.box.y2 * outcome.scale.sy := by
    unfold remapBox
    exact clamp_of_mem _ _ hy20 hy2h
  rw [hbox]
  refine ⟨⟨?_, ?_, ?_⟩, ⟨?_, ?_, ?_⟩⟩
  · rw [ex1]; exact mul_nonneg hx0 hsx'
  · rw [ex1, ex2]; exact mul_lt_mul_of_pos_right hx12 hsx
  · rw [ex2]; exact hx2w
  · rw [ey1]; exact mul_nonneg hy0 hsy'
  · rw [ey1, ey2]; exact mul_lt_mul_of_pos_right hy12 hsy
  · rw [ey2]; exact hy2h

/-- C4: no raw detection scoring below the requested confidence threshold
appears in the post-processing output, and when every raw detection
scores below the threshold the pipeline succeeds with an empty sequence,
the formatted response reporting zero detections and success. -/
theorem confidence_filter_correct
    (raw : List RawDetection) (s : ScaleFactors) (img : ImageSize)
    (cn : List String) (confThr iouThr : ℚ) (desc : ModelDescriptor) (ts : String) :
    (∀ dets, process raw s img cn confThr iouThr = .ok dets →
      ∀ d ∈ dets, confThr ≤ d.confidence) ∧
    ((∀ rd ∈ raw, rd.score < confThr) →
      process raw s img cn confThr iouThr = .ok [] ∧
      (format desc img [] confThr ts).detections = [] ∧
      (format desc img [] confThr ts).detection_count = 0 ∧
      (format desc img [] confThr ts).success = true) := by
  constructor
  · intro dets h d hd
    rcases process_ok_mem h d hd with ⟨rd, _, hthr, hcf, _⟩
    rw [hcf]; exact hthr
  · intro hall
    have hfilter : (enumFrom 0 raw).filter (fun p => decide (confThr ≤ p.2.score)) = [] := by
      rw [List.filter_eq_nil_iff]
      intro p hp
      have := hall p.2 (mem_enumFrom hp)
      simp only [decide_eq_true_eq]
      exact not_le.mpr this
    have hidx : processIndexed raw s img cn confThr iouThr = .ok [] := by
      simp only [processIndexed]
      rw [hfilter]
      rfl
    refine ⟨?_, rfl, rfl, rfl⟩
    unfold process
    rw [hidx]
    rfl

end VistaServe

namespace VistaServe

/-- C5: no two same-class detections in the duplicate-suppression output have
IoU above the threshold; of two overlapping same-class raw detections the
higher-confidence one is kept, an exact confidence tie keeping the one
emitted first by the detector. -/
theorem suppression_correct (iouThr : ℚ) (l : List (ℕ × RawDetection)) :
    (nms iouThr l).Pairwise
      (fun a b => a.2.classId = b.2.classId → iou a.2.box b.2.box ≤ iouThr) ∧
    ∀ d1 d2 : RawDetection, d1.classId = d2.classId →
      iouThr < iou d1.box d2.box →
      (d2.score ≤ d1.score → nms iouThr [(0, d1), (1, d2)] = [(0, d1)]) ∧
      (d1.score < d2.score → nms iouThr [(0, d1), (1, d2)] = [(1, d2)]) := by
  constructor
  · unfold nms
    exact pairwise_nmsLoop List.Pairwise.nil
  · intro d1 d2 hcls hiou
    constructor
    · intro hscore
      have hle : scoreLE (0, d1) (1, d2) = true := by
        simp only [scoreLE, Bool.or_eq_true, Bool.and_eq_true, decide_eq_true_iff]
        rcases lt_or_eq_of_le hscore with h | h
        · exact Or.inl h
        · exact Or.inr ⟨h.symm, Nat.zero_le 1⟩
      have hsorted : sortBy scoreLE [(0, d1), (1, d2)] = [(0, d1), (1, d2)] := by
        simp [sortBy, insertBy, hle]
      have hsup : suppresses iouThr (0, d1) (1, d2) = true := by
        simp only [suppresses, Bool.and_eq_true, beq_iff_eq, decide_eq_true_iff]
        exact ⟨hcls, hiou⟩
      unfold nms
      rw [hsorted]
      simp [nmsLoop, hsup]
    · intro hscore
      have h1 : ¬ d2.score < d1.score := not_lt.mpr (le_of_lt hscore)
      have h2 : ¬ d1.score = d2.score := ne_of_lt hscore
      have hle : scoreLE (0, d1) (1, d2) = false := by
        simp [scoreLE, h1, h2]
      have hsorted : sortBy scoreLE [(0, d1), (1, d2)] = [(1, d2), (0, d1)] := by
        simp [sortBy, insertBy, hle]
      have hsup : suppresses iouThr (1, d2) (0, d1) = true := by
        simp only [suppresses, Bool.and_eq_true, beq_iff_eq, decide_eq_true_iff]
        refine ⟨hcls.symm, ?_⟩
        rw [iou_comm]
        exact hiou
      unfold nms
      rw [hsorted]
      simp [nmsLoop, hsup]

/-- C6: the post-processed detection sequence is sorted by descending
confidence with ties broken by ascending class id and then by detector
emission order, and the formatted response's detection count equals the
length of its detection sequence. -/
theorem detections_ordered_and_counted
    (raw : List RawDetection) (s : ScaleFactors) (img : ImageSize)
    (cn : List String) (confThr iouThr : ℚ) (desc : ModelDescriptor) (ts : String)
    (idets : List (ℕ × DetectionResult))
    (h : processIndexed raw s img cn confThr iouThr = .ok idets) :
    idets.Pairwise (fun a b =>
      b.2.confidence < a.2.confidence ∨
        (a.2.confidence = b.2.confidence ∧
          (a.2.class_id < b.2.class_id ∨
            (a.2.class_id = b.2.class_id ∧ a.1 ≤ b.1)))) ∧
    process raw s img cn confThr iouThr = .ok (idets.map Prod.snd) ∧
    (format desc img (idets.map Prod.snd) confThr ts).detections.Pairwise (fun a b =>
      b.confidence < a.confidence ∨
        (a.confidence = b.confidence ∧ a.class_id ≤ b.class_id)) ∧
    (format desc img (idets.map Prod.snd) confThr ts).detection_count =
      (format desc img (idets.map Prod.snd) confThr ts).detections.length := by
  have hpair : idets.Pairwise (fun a b => detLE a b = true) := by
    simp only [processIndexed] at h
    split at h
    · exact absurd h (by simp)
    case h_2 results heq =>
      injection h with h2
      subst h2
      exact sorted_sortBy detLE_total detLE_trans results
  refine ⟨?_, ?_, ?_, rfl⟩
  · exact hpair.imp (fun hab => (detLE_iff _ _).mp hab)
  · unfold process
    rw [h]
  · exact hpair.map Prod.snd (fun a b hab => by
      rcases (detLE_iff a b).mp hab with h1 | ⟨h1, h2⟩
      · exact Or.inl h1
      · refine Or.inr ⟨h1, ?_⟩
        rcases h2 with h3 | ⟨h3, _⟩
        · exact Nat.le_of_lt h3
        · exact Nat.le_of_eq h3)

/-- C7: every failing request is answered by exactly a success flag set to
false and an error message, with no detections field present; an unknown
model id in particular fails with a not-found error. -/
theorem failure_response_shape
    (reg : List ModelDescriptor) (inference : Except ServeError InferOutcome)
    (req : PredictRequest) (ts : String) (e : ServeError) :
    (runPredict reg inference req ts = .error e →
      predictEndpoint reg inference req ts = errorJson e ∧
      Json.keys (errorJson e) = ["success", "error"] ∧
      Json.lookup "success" (errorJson e) = some (Json.bool false) ∧
      Json.lookup "detections" (errorJson e) = none) ∧
    (reg.find? (fun d => d.id == req.modelId) = none →
      runPredict reg inference req ts = .error (.notFound req.modelId)) := by
  constructor
  · intro h
    refine ⟨?_, rfl, rfl, rfl⟩
    unfold predictEndpoint
    rw [h]
  · intro h
    unfold runPredict resolve
    rw [h]

/-- C8: the wire contract accepts any confidence threshold in the unit
interval, an omitted confidence field defaults to one half, and a request
that succeeds with the field omitted reports exactly that applied
threshold. -/
theorem confidence_request_contract
    (q : ℚ) (reg : List ModelDescriptor) (inference : Except ServeError InferOutcome)
    (req : PredictRequest) (ts : String) (r : PredictionResponse) :
    (0 ≤ q → q ≤ 1 → parseConfidence (some q) = .ok q) ∧
    parseConfidence none = .ok defaultConfidence ∧
    defaultConfidence = 1/2 ∧
    (req.confidence = none → runPredict reg inference req ts = .ok r →
      r.confidence_threshold = 1/2) := by
  refine ⟨?_, rfl, rfl, ?_⟩
  · intro h1 h2
    simp only [parseConfidence]
    rw [if_pos ⟨h1, h2⟩]
  · intro hnone h
    rcases runPredict_ok_elim h with ⟨desc, conf, outcome, dets, _, hconf, _, _, hr⟩
    rw [hnone] at hconf
    have hc : conf = defaultConfidence := by
      unfold parseConfidence at hconf
      injection hconf with h3
      exact h3.symm
    subst hr
    exact hc

end VistaServe

namespace VistaServe

theorem loaderInv_init : LoaderInv initLoader := by
  refine ⟨Nat.zero_le 1, ?_, ?_, ?_, ?_, ?_⟩
  · intro h
    exact absurd h (by simp [initLoader])
  · intro t ht
    rcases ht with h | h <;> exact absurd h (by simp [initLoader])
  · intro t ht
    exact absurd ht (by simp [initLoader])
  · intro h
    exact absurd h (by simp [initLoader])
  · intro t ht
    exact absurd ht (by simp [initLoader])

theorem loaderInv_step {s s' : LoaderState}
    (hs : LoaderInv s) (h : LoaderStep s s') : LoaderInv s' := by
  obtain ⟨h1, h2, h3, h4, h5, h6⟩ := hs
  cases h with
  | fastPath t ht hc =>
    refine ⟨h1, h2, ?_, ?_, ?_, ?_⟩
    · intro u hu
      dsimp only at hu ⊢
      rcases eq_or_ne u t with rfl | hne
      · rw [Function.update_same] at hu
        rcases hu with h' | h' <;> exact absurd h' (by simp)
      · rw [Function.update_noteq hne] at hu
        exact h3 u hu
    · intro u hu
      dsimp only at hu ⊢
      rcases eq_or_ne u t with rfl | hne
      · rw [Function.update_same] at hu
        exact absurd hu (by simp)
      · rw [Function.update_noteq hne] at hu
        exact h4 u hu
    · intro hl1
      dsimp only at hl1 ⊢
      rcases h5 hl1 with hca | ⟨u, hu⟩
      · exact Or.inl hca
      · have hne : u ≠ t := by
          intro e
          subst e
          rw [ht] at hu
          exact absurd hu (by simp)
        exact Or.inr ⟨u, by rw [Function.update_noteq hne]; exact hu⟩
    · intro u hu
      dsimp only at hu ⊢
      rcases eq_or_ne u t with rfl | hne
      · exact hc
      · rw [Function.update_noteq hne] at hu
        exact h6 u hu
  | missPath t ht hc =>
    refine ⟨h1, h2, ?_, ?_, ?_, ?_⟩
    · intro u hu
      dsimp only at hu ⊢
      rcases eq_or_ne u t with rfl | hne
      · rw [Function.update_same] at hu
        rcases hu with h' | h' <;> exact absurd h' (by simp)
      · rw [Function.update_noteq hne] at hu
        exact h3 u hu
    · intro u hu
      dsimp only at hu ⊢
      rcases eq_or_ne u t with rfl | hne
      · rw [Function.update_same] at hu
        exact absurd hu (by simp)
      · rw [Function.update_noteq hne] at hu
        exact h4 u hu
    · intro hl1
      dsimp only at hl1 ⊢
      rcases h5 hl1 with hca | ⟨u, hu⟩
      · exact Or.inl hca
      · have hne : u ≠ t := by
          intro e
          subst e
          rw [ht] at hu
          exact absurd hu (by simp)
        exact Or.inr ⟨u, by rw [Function.update_noteq hne]; exact hu⟩
    · intro u hu
      dsimp only at hu ⊢
      rcases eq_or_ne u t with rfl | hne
      · rw [Function.update_same] at hu
        exact absurd hu (by simp)
      · rw [Function.update_noteq hne] at hu
        exact h6 u hu
  | acquire t ht hl =>
    refine ⟨h1, h2, ?_, ?_, ?_, ?_⟩
    · intro u hu
      dsimp only at hu ⊢
      rcases eq_or_ne u t with rfl | hne
      · rfl
      · rw [Function.update_noteq hne] at hu
        have h' := h3 u hu
        rw [hl] at h'
        exact absurd h' (by simp)
    · intro u hu
      dsimp only at hu ⊢
      rcases eq_or_ne u t with rfl | hne
      · rw [Function.update_same] at hu
        exact absurd hu (by simp)
      · rw [Function.update_noteq hne] at hu
        exact h4 u hu
    · intro hl1
      dsimp only at hl1 ⊢
      rcases h5 hl1 with hca | ⟨u, hu⟩
      · exact Or.inl hca
      · have hne : u ≠ t := by
          intro e
          subst e
          rw [ht] at hu
          exact absurd hu (by simp)
        exact Or.inr ⟨u, by rw [Function.update_noteq hne]; exact hu⟩
    · intro u hu
      dsimp only at hu ⊢
      rcases eq_or_ne u t with rfl | hne
      · rw [Function.update_same] at hu
        exact absurd hu (by simp)
      · rw [Function.update_noteq hne] at hu
        exact h6 u hu
  | hitUnderLock t ht hc =>
    have hlt : s.lock = some t := h3 t (Or.inl ht)
    refine ⟨h1, h2, ?_, ?_, ?_, ?_⟩
    · intro u hu
      dsimp only at hu ⊢
      rcases eq_or_ne u t with rfl | hne
      · rw [Function.update_same] at hu
        rcases hu with h' | h' <;> exact absurd h' (by simp)
      · rw [Function.update_noteq hne] at hu
        have h' := h3 u hu
        rw [hlt] at h'
        injection h' with h''
        exact absurd h''.symm hne
    · intro u hu
      dsimp only at hu ⊢
      rcases eq_or_ne u t with rfl | hne
      · rw [Function.update_same] at hu
        exact absurd hu (by simp)
      · rw [Function.update_noteq hne] at hu
        rcases h4 u hu with ⟨_, hcf⟩
        rw [hc] at hcf
        exact absurd hcf (by simp)
    · intro _
      exact Or.inl hc
    · intro u hu
      dsimp only at hu ⊢
      rcases eq_or_ne u t with rfl | hne
      · exact hc
      · rw [Function.update_noteq hne] at hu
        exact h6 u hu
  | beginLoad t ht hc =>
    have hlt : s.lock = some t := h3 t (Or.inl ht)
    have h0 : s.loads = 0 := by
      rcases Nat.lt_or_ge s.loads 1 with h' | h'
      · omega
      · exfalso
        have hl1 : s.loads = 1 := le_antisymm h1 h'
        rcases h5 hl1 with hca | ⟨u, hu⟩
        · rw [hc] at hca
          exact absurd hca (by simp)
        · have h'' := h3 u (Or.inr hu)
          rw [hlt] at h''
          injection h'' with h'''
          subst h'''
          rw [ht] at hu
          exact absurd hu (by simp)
    refine ⟨?_, ?_, ?_, ?_, ?_, ?_⟩
    · dsimp only
      omega
    · intro hcc
      dsimp only at hcc
      rw [hc] at hcc
      exact absurd hcc (by simp)
    · intro u hu
      dsimp only at hu ⊢
      rcases eq_or_ne u t with rfl | hne
      · exact hlt
      · rw [Function.update_noteq hne] at hu
        exact h3 u hu
    · intro u hu
      dsimp only at hu ⊢
      exact ⟨by omega, hc⟩
    · intro _
      dsimp only
      exact Or.inr ⟨t, by rw [Function.update_same]⟩
    · intro u hu
      dsimp only at hu ⊢
      rcases eq_or_ne u t with rfl | hne
      · rw [Function.update_same] at hu
        exact absurd hu (by simp)
      · rw [Function.update_noteq hne] at hu
        exact h6 u hu
  | publish t ht =>
    rcases h4 t ht with ⟨hl1, hcf⟩
    have hlt : s.lock = some t := h3 t (Or.inr ht)
    refine ⟨h1, ?_, ?_, ?_, ?_, ?_⟩
    · intro _
      exact hl1
    · intro u hu
      dsimp only at hu ⊢
      rcases eq_or_ne u t with rfl | hne
      · rw [Function.update_same] at hu
        rcases hu with h' | h' <;> exact absurd h' (by simp)
      · rw [Function.update_noteq hne] at hu
        have h' := h3 u hu
        rw [hlt] at h'
        injection h' with h''
        exact absurd h''.symm hne
    · intro u hu
      dsimp only at hu ⊢
      rcases eq_or_ne u t with rfl | hne
      · rw [Function.update_same] at hu
        exact absurd hu (by simp)
      · rw [Function.update_noteq hne] at hu
        have h' := h3 u (Or.inr hu)
        rw [hlt] at h'
        injection h' with h''
        exact absurd h''.symm hne
    · intro _
      exact Or.inl rfl
    · intro u _
      rfl

theorem loaderInv_reachable {s : LoaderState} (h : ReachableLoader s) : LoaderInv s := by
  induction h with
  | start => exact loaderInv_init
  | step _ hstep ih => exact loaderInv_step ih hstep

/-- C9: under any interleaving of concurrent first-time requests for the same
unloaded model, at most one load invocation ever occurs, and once any
caller has completed, exactly one load has occurred — duplicate loads
being prevented by the re-check under the per-descriptor exclusive
lock. -/
theorem single_load_under_concurrency (s : LoaderState) (h : ReachableLoader s) :
    s.loads ≤ 1 ∧ ∀ t, s.threads t = Phase.finished → s.loads = 1 := by
  have hi := loaderInv_reachable h
  exact ⟨hi.1, fun t ht => hi.2.1 (hi.2.2.2.2.2 t ht)⟩

/-- C10: the demo client's confidence threshold starts at one half and is
only ever replaced through a slider with minimum one tenth, maximum one
and step one twentieth, so every prediction request it issues carries a
confidence threshold in the closed interval from one tenth to one;
thresholds below one tenth are unreachable from the client interface. -/
theorem client_confidence_slider_range (moves : List (Fin 19)) :
    1/10 ≤ DemoClient.requestConfidence moves ∧
      DemoClient.requestConfidence moves ≤ 1 := by
  have aux : ∀ (l : List (Fin 19)) (a : ℚ), 1/10 ≤ a → a ≤ 1 →
      1/10 ≤ l.foldl (fun _ k => DemoClient.sliderValue k) a ∧
        l.foldl (fun _ k => DemoClient.sliderValue k) a ≤ 1 := by
    intro l
    induction l with
    | nil =>
      intro a ha1 ha2
      exact ⟨ha1, ha2⟩
    | cons k ks ih =>
      intro a _ _
      have hk0 : (0 : ℚ) ≤ (k.1 : ℚ) := Nat.cast_nonneg k.1
      have hk18 : (k.1 : ℚ) ≤ 18 := by
        have := Nat.lt_succ_iff.mp k.2
        exact_mod_cast this
      refine ih (DemoClient.sliderValue k) ?_ ?_
      · unfold DemoClient.sliderValue DemoClient.sliderMin DemoClient.sliderStep
        linarith
      · unfold DemoClient.sliderValue DemoClient.sliderMin DemoClient.sliderStep
        linarith
  have hinit : (1 : ℚ)/10 ≤ DemoClient.initialConfidence ∧
      DemoClient.initialConfidence ≤ 1 := by
    unfold DemoClient.initialConfidence
    norm_num
  exact aux moves DemoClient.initialConfidence hinit.1 hinit.2

end VistaServe

namespace VistaServe

unseal Rat.add Rat.mul Rat.sub Rat.inv in
theorem success_response_exact_fields_witness :
    Json.keys (responseJson demoResponse) =
      ["success", "model_used", "model_name", "image_size", "detections",
       "detection_count", "confidence_threshold", "timestamp"] ∧
    Json.keys (detectionJson demoDetection) =
      ["bbox", "confidence", "class_id", "class_name"] :=
  ⟨(success_response_exact_fields demoRegistry (Except.ok demoOutcome) demoRequest "t0"
      demoResponse (by decide)).1,
   (success_response_exact_fields demoRegistry (Except.ok demoOutcome) demoRequest "t0"
      demoResponse (by decide)).2.2.2 demoDetection (by decide)⟩

unseal Rat.add Rat.mul Rat.sub Rat.inv in
theorem detection_confidence_and_class_pairing_witness :
    (0 ≤ demoDetection.confidence ∧ demoDetection.confidence ≤ 1) ∧
      demoDescriptor.classNames[demoDetection.class_id]? = some demoDetection.class_name :=
  detection_confidence_and_class_pairing demoRegistry (Except.ok demoOutcome) demoRequest "t0"
    demoResponse demoDescriptor demoOutcome (by decide) (by decide) rfl (by decide)
    demoDetection (by decide)

unseal Rat.add Rat.mul Rat.sub Rat.inv in
theorem detection_bbox_within_image_bounds_witness :
    (0 ≤ demoDetection.bbox.x1 ∧ demoDetection.bbox.x1 < demoDetection.bbox.x2 ∧
      demoDetection.bbox.x2 ≤ demoResponse.image_size.1) ∧
    (0 ≤ demoDetection.bbox.y1 ∧ demoDetection.bbox.y1 < demoDetection.bbox.y2 ∧
      demoDetection.bbox.y2 ≤ demoResponse.image_size.2) :=
  detection_bbox_within_image_bounds demoRegistry (Except.ok demoOutcome) demoRequest "t0"
    demoResponse demoOutcome (by decide) rfl (by decide) (by decide) (by decide)
    demoDetection (by decide)

unseal Rat.add Rat.mul Rat.sub Rat.inv in
theorem confidence_filter_correct_witness :
    (1/2 : ℚ) ≤ demoDetection.confidence ∧
      process [demoRawLow] demoOutcome.scale demoOutcome.imageSize demoClasses
        (1/2) (9/20) = Except.ok [] :=
  ⟨(confidence_filter_correct demoOutcome.raw demoOutcome.scale demoOutcome.imageSize
      demoClasses (1/2) (9/20) demoDescriptor "t0").1 [demoDetection] (by decide)
      demoDetection (by decide),
   ((confidence_filter_correct [demoRawLow] demoOutcome.scale demoOutcome.imageSize
      demoClasses (1/2) (9/20) demoDescriptor "t0").2 (by decide)).1⟩

unseal Rat.add Rat.mul Rat.sub Rat.inv in
theorem suppression_correct_witness :
    nms (1/2) [(0, demoRaw), (1, demoRawB)] = [(0, demoRaw)] :=
  ((suppression_correct (1/2) []).2 demoRaw demoRawB rfl (by decide)).1 (by decide)

unseal Rat.add Rat.mul Rat.sub Rat.inv in
theorem detections_ordered_and_counted_witness :
    [(0, demoDetection)].Pairwise (fun a b =>
      b.2.confidence < a.2.confidence ∨
        (a.2.confidence = b.2.confidence ∧
          (a.2.class_id < b.2.class_id ∨
            (a.2.class_id = b.2.class_id ∧ a.1 ≤ b.1)))) ∧
    process demoOutcome.raw demoOutcome.scale demoOutcome.imageSize demoClasses
      (1/2) (9/20) = Except.ok ([(0, demoDetection)].map Prod.snd) ∧
    (format demoDescriptor demoOutcome.imageSize ([(0, demoDetection)].map Prod.snd)
      (1/2) "t0").detections.Pairwise (fun a b =>
        b.confidence < a.confidence ∨
          (a.confidence = b.confidence ∧ a.class_id ≤ b.class_id)) ∧
    (format demoDescriptor demoOutcome.imageSize ([(0, demoDetection)].map Prod.snd)
      (1/2) "t0").detection_count =
      (format demoDescriptor demoOutcome.imageSize ([(0, demoDetection)].map Prod.snd)
        (1/2) "t0").detections.length :=
  detections_ordered_and_counted demoOutcome.raw demoOutcome.scale demoOutcome.imageSize
    demoClasses (1/2) (9/20) demoDescriptor "t0" [(0, demoDetection)] (by decide)

unseal Rat.add Rat.mul Rat.sub Rat.inv in
theorem failure_response_shape_witness :
    predictEndpoint demoRegistry (Except.ok demoOutcome) demoRequestUnknown "t0" =
      errorJson (ServeError.notFound "nonexistent") ∧
    Json.keys (errorJson (ServeError.notFound "nonexistent")) = ["success", "error"] ∧
    runPredict demoRegistry (Except.ok demoOutcome) demoRequestUnknown "t0" =
      Except.error (ServeError.notFound demoRequestUnknown.modelId) :=
  ⟨((failure_response_shape demoRegistry (Except.ok demoOutcome) demoRequestUnknown "t0"
      (ServeError.notFound "nonexistent")).1 (by decide)).1,
   ((failure_response_shape demoRegistry (Except.ok demoOutcome) demoRequestUnknown "t0"
      (ServeError.notFound "nonexistent")).1 (by decide)).2.1,
   (failure_response_shape demoRegistry (Except.ok demoOutcome) demoRequestUnknown "t0"
      (ServeError.notFound "nonexistent")).2 (by decide)⟩

unseal Rat.add Rat.mul Rat.sub Rat.inv in
theorem confidence_request_contract_witness :
    parseConfidence (some (3/4)) = Except.ok (3/4) ∧
    parseConfidence none = Except.ok defaultConfidence ∧
    demoResponse.confidence_threshold = 1/2 :=
  ⟨(confidence_request_contract (3/4) demoRegistry (Except.ok demoOutcome) demoRequestNoConf
      "t0" demoResponse).1 (by decide) (by decide),
   (confidence_request_contract (3/4) demoRegistry (Except.ok demoOutcome) demoRequestNoConf
      "t0" demoResponse).2.1,
   (confidence_request_contract (3/4) demoRegistry (Except.ok demoOutcome) demoRequestNoConf
      "t0" demoResponse).2.2.2 rfl (by decide)⟩

theorem single_load_under_concurrency_witness :
    loaderTrace4.loads ≤ 1 ∧ loaderTrace4.loads = 1 := by
  have hreach : ReachableLoader loaderTrace4 :=
    ReachableLoader.step
      (ReachableLoader.step
        (ReachableLoader.step
          (ReachableLoader.step ReachableLoader.start
            (LoaderStep.missPath initLoader 0 rfl rfl))
          (LoaderStep.acquire loaderTrace1 0 rfl rfl))
        (LoaderStep.beginLoad loaderTrace2 0 rfl rfl))
      (LoaderStep.publish loaderTrace3 0 rfl)
  have h := single_load_under_concurrency loaderTrace4 hreach
  exact ⟨h.1, h.2 0 rfl⟩

end VistaServe
